import Mathlib

/-!
Shallow embedding of the storage core of `protomem/embedstore`
(`src/data/data.go`): pages, the Metainfo root record, the Freelist
allocator and the Pager with its flush/recovery cycle, together with
proofs of the spec's testable properties.

Go machine integers are modelled as `Int`/`Nat` with explicit reduction
modulo `2^64` (resp. `2^32`) where the code converts; byte buffers are
`List Nat` whose encoders only ever produce values below 256.
-/

namespace EmbedStore

/-- Reserved page-number constants from `data.go`. -/
def DefaultMetaPage : Int := 0

/-- Default location of the freelist record (`DefaultMetaPage + 1`). -/
def DefaultFlistPage : Int := DefaultMetaPage + 1

/-- First page number handed out to data (`DefaultFlistPage + 1`). -/
def BeginFreeBlocks : Int := DefaultFlistPage + 1

/-- The single decode failure kind, `ErrWrongBytes` in the source. -/
inductive DecodeErr where
  | wrongBytes
deriving Repr, DecidableEq

/-- Little-endian base-256 encoding of `n` on exactly `k` bytes,
mirroring `binary.LittleEndian.PutUintNN`. -/
def encBytes : Nat → Nat → List Nat
  | 0, _ => []
  | k + 1, n => n % 256 :: encBytes k (n / 256)

/-- Little-endian base-256 decoding, mirroring `binary.LittleEndian.UintNN`. -/
def decBytes : List Nat → Nat
  | [] => 0
  | b :: rest => b + 256 * decBytes rest

/-- Go's `uint64(v)` for an `int64` value: reduction modulo `2^64`. -/
def toUint64 (v : Int) : Nat := (v % (2 : Int) ^ 64).toNat

/-- Go's `PageNum(u)` (i.e. `int64(u)`) for a `uint64` value:
two's-complement reinterpretation. -/
def toInt64 (u : Nat) : Int := if u < 2 ^ 63 then (u : Int) else (u : Int) - 2 ^ 64

/-- Wrap-around of Go's `int64` arithmetic: reduce modulo `2^64` and
reinterpret as a signed value in `[-2^63, 2^63)`. -/
def wrap64 (v : Int) : Int := toInt64 (toUint64 v)

/-- Failure kinds surfaced by the Pager: I/O failures of the underlying
file (invalid offset, read past end-of-file) and decode failures
propagated from `Deserialize`. -/
inductive PagerErr where
  | ioErr
  | decodeErr (e : DecodeErr)
deriving Repr, DecidableEq

/-- `Freelist` from `data.go`: high-water mark and stack of released pages. -/
structure Freelist where
  Max : Int
  Released : List Int
deriving Repr, DecidableEq

/-- `NewFreelist()`. -/
def NewFreelist : Freelist := ⟨BeginFreeBlocks, []⟩

/-- `Freelist.Next()`: pop the most recently released page if any,
otherwise grow `Max` (Go's `flist.Max += 1`, which wraps as an `int64`)
and return its previous value. -/
def Freelist.Next (fl : Freelist) : Int × Freelist :=
  if fl.Released.length = 0 then
    (fl.Max, ⟨wrap64 (fl.Max + 1), fl.Released⟩)
  else
    (fl.Released.getLastD 0, ⟨fl.Max, fl.Released.dropLast⟩)

/-- `Freelist.Release(num)`: push unless `num ≤ BeginFreeBlocks`. -/
def Freelist.Release (fl : Freelist) (num : Int) : Freelist :=
  if num ≤ BeginFreeBlocks then fl
  else ⟨fl.Max, fl.Released ++ [num]⟩

/-- `Freelist.Serialize()`: `Max` on 8 bytes, the released count on 4
bytes, then each released number on 8 bytes, all little-endian. -/
def Freelist.Serialize (fl : Freelist) : List Nat :=
  encBytes 8 (toUint64 fl.Max) ++ encBytes 4 fl.Released.length ++
    (fl.Released.map fun num => encBytes 8 (toUint64 num)).flatten

/-- `Freelist.Deserialize(b)`: the receiver is mutated field by field
exactly as in the source, so a body-length failure leaves `Max` decoded
and `Released` zero-filled at the declared length. -/
def Freelist.Deserialize (fl : Freelist) (b : List Nat) : Freelist × Option DecodeErr :=
  if b.length < 8 + 4 then (fl, some .wrongBytes)
  else
    let max := toInt64 (decBytes (b.take 8))
    let released0 : List Int := List.replicate (decBytes ((b.drop 8).take 4)) 0
    if b.length < (8 + 4) + 8 * released0.length then
      (⟨max, released0⟩, some .wrongBytes)
    else
      (⟨max, (List.range released0.length).map fun i =>
          toInt64 (decBytes ((b.drop (12 + 8 * i)).take 8))⟩, none)

/-- `Freelist.Equal(other)`: same `Max`, same length, membership-based
comparison of the released lists. -/
def Freelist.Equal (fl other : Freelist) : Bool :=
  fl.Max == other.Max && fl.Released.length == other.Released.length &&
    fl.Released.all fun x => other.Released.any fun y => x == y

/-- Iterate `Freelist.Next` `n` times, collecting the returned numbers. -/
def nextsFl : Nat → Freelist → List Int × Freelist
  | 0, fl => ([], fl)
  | n + 1, fl =>
    let r := fl.Next
    let rest := nextsFl n r.2
    (r.1 :: rest.1, rest.2)

/-- A call against the allocator: either `Next()` or `Release(n)`. -/
inductive FlOp where
  | next
  | release (n : Int)

/-- Run a sequence of allocator calls, discarding `Next`'s results. -/
def runOps : List FlOp → Freelist → Freelist
  | [], fl => fl
  | .next :: ops, fl => runOps ops (fl.Next).2
  | .release n :: ops, fl => runOps ops (fl.Release n)

/-- `Metainfo` from `data.go`: the root record, holding only the page
number where the freelist is stored. -/
structure Metainfo where
  Freelist : Int
deriving Repr, DecidableEq

/-- `NewMetainfo()`. -/
def NewMetainfo : Metainfo := ⟨DefaultFlistPage⟩

/-- `Metainfo.Serialize()`: 8-byte little-endian encoding of the
freelist page number. -/
def Metainfo.Serialize (meta : Metainfo) : List Nat :=
  encBytes 8 (toUint64 meta.Freelist)

/-- `Metainfo.Deserialize(b)`: fails when fewer than 8 bytes are given,
otherwise decodes the freelist page number. -/
def Metainfo.Deserialize (meta : Metainfo) (b : List Nat) :
    Metainfo × Option DecodeErr :=
  if b.length < 8 then (meta, some .wrongBytes)
  else (⟨toInt64 (decBytes (b.take 8))⟩, none)

/-- `Metainfo.Equal(other)`. -/
def Metainfo.Equal (meta other : Metainfo) : Bool :=
  meta.Freelist == other.Freelist

/-- `Page` from `data.go`: an in-memory buffer tagged with its number. -/
structure Page where
  Num : Int
  Data : List Nat
deriving Repr, DecidableEq

/-- `NewPage(num, size)`: a zero-filled buffer of `size` bytes. -/
def NewPage (num : Int) (size : Nat) : Page := ⟨num, List.replicate size 0⟩

/-- `Page.WithNum(num)`: the same buffer under a new page number. -/
def Page.WithNum (pg : Page) (num : Int) : Page := ⟨num, pg.Data⟩

/-- Go's `copy(dst, src)`: overwrite the first
`min (length src) (length dst)` entries of `dst` with those of `src`. -/
def copyBytes (dst src : List Nat) : List Nat :=
  src.take (min src.length dst.length) ++ dst.drop (min src.length dst.length)

/-- `Page.Write(b)`: `copy(pg.Data, b)`. -/
def Page.Write (pg : Page) (b : List Nat) : Page := ⟨pg.Num, copyBytes pg.Data b⟩

/-- The content of the backing file, as a byte-addressable store. -/
def FileBytes : Type := Int → Nat

/-- Overwrite `d.length` bytes of the content at `off`. -/
def writeAt (f : FileBytes) (off : Int) (d : List Nat) : FileBytes :=
  fun i => if off ≤ i ∧ i < off + d.length then d.getD (i - off).toNat 0 else f i

/-- Read `n` bytes of the content starting at `off`. -/
def readAt (f : FileBytes) (off : Int) (n : Nat) : List Nat :=
  (List.range n).map fun i : Nat => f (off + i)

/-- The backing file: its byte content together with its current size,
so that reads past end-of-file fail as they do on a real file. -/
structure FileState where
  bytes : FileBytes
  size : Int

/-- Positioned write (`WriteAt`): fails on a negative offset, otherwise
overwrites `d.length` bytes at `off`, extending the file as needed. -/
def writeFile (fs : FileState) (off : Int) (d : List Nat) :
    FileState × Option PagerErr :=
  if off < 0 then (fs, some .ioErr)
  else (⟨writeAt fs.bytes off d, max fs.size (off + d.length)⟩, none)

/-- Positioned read (`ReadAt`): fails on a negative offset or when the
requested range extends past end-of-file. -/
def readFile (fs : FileState) (off : Int) (n : Nat) :
    List Nat × Option PagerErr :=
  if 0 ≤ off ∧ off + n ≤ fs.size then (readAt fs.bytes off n, none)
  else (readAt fs.bytes off n, some .ioErr)

/-- `Pager` from `data.go`: page size, the two control structures, and
the backing file. -/
structure Pager where
  psize : Nat
  meta : Metainfo
  flist : Freelist
  file : FileState

/-- `Pager.Alloc()`: a zero-filled page of the configured size. -/
def Pager.Alloc (pgr : Pager) : Page := NewPage 0 pgr.psize

/-- `Pager.Write(pg)`: write the page's buffer at offset
`int64(pg.Num) * int64(psize)` — the product wraps as Go `int64`
multiplication does. -/
def Pager.Write (pgr : Pager) (pg : Page) : Pager × Option PagerErr :=
  let r := writeFile pgr.file (wrap64 (pg.Num * pgr.psize)) pg.Data
  ({ pgr with file := r.1 }, r.2)

/-- `Pager.Read(num)`: read `psize` bytes at the (wrapping) offset
`int64(num) * int64(psize)`. -/
def Pager.Read (pgr : Pager) (num : Int) : Page × Option PagerErr :=
  let r := readFile pgr.file (wrap64 (num * pgr.psize)) pgr.psize
  (⟨num, r.1⟩, r.2)

/-- `Pager.Flush()`: copy Metainfo's serialization into a zeroed page
tagged page 0 and write it, then copy the Freelist's serialization into
a zeroed page tagged with `meta.Freelist` and write it; a failed first
write aborts. -/
def Pager.Flush (pgr : Pager) : Pager × Option PagerErr :=
  let metapg := (pgr.Alloc.WithNum DefaultMetaPage).Write pgr.meta.Serialize
  let w1 := pgr.Write metapg
  match w1.2 with
  | some e => (w1.1, some e)
  | none =>
    let flistpg := (w1.1.Alloc.WithNum pgr.meta.Freelist).Write pgr.flist.Serialize
    w1.1.Write flistpg

/-- `Pager.Recovery()`: read page 0 into Metainfo, then read the page it
points to into the Freelist; any read or decode failure aborts. -/
def Pager.Recovery (pgr : Pager) : Pager × Option PagerErr :=
  let metaRead := pgr.Read DefaultMetaPage
  match metaRead.2 with
  | some e => (pgr, some e)
  | none =>
    let metaRes := pgr.meta.Deserialize metaRead.1.Data
    let pgr1 : Pager := { pgr with meta := metaRes.1 }
    match metaRes.2 with
    | some e => (pgr1, some (.decodeErr e))
    | none =>
      let flistRead := pgr1.Read pgr1.meta.Freelist
      match flistRead.2 with
      | some e => (pgr1, some e)
      | none =>
        let flistRes := pgr1.flist.Deserialize flistRead.1.Data
        ({ pgr1 with flist := flistRes.1 },
          flistRes.2.map fun e => .decodeErr e)

/-- A concrete pager state over a zeroed, empty 32-byte-page file, used
to evaluate the flush/recovery cycle on one input. -/
def examplePager : Pager :=
  { psize := 32, meta := ⟨1⟩, flist := ⟨5, [4]⟩, file := ⟨fun _ => 0, 0⟩ }

/-- A pager whose freelist pointer `2^62` makes the int64 flush offset
`2^62 * 32` wrap to 0, so the freelist record lands on page 0. -/
def wrapPager : Pager :=
  { psize := 32, meta := ⟨2 ^ 62⟩, flist := ⟨5, []⟩, file := ⟨fun _ => 0, 0⟩ }

lemma toInt64_toUint64 (v : Int) (h1 : -(2 ^ 63) ≤ v) (h2 : v < 2 ^ 63) :
    toInt64 (toUint64 v) = v := by
  unfold toInt64 toUint64
  have h : (0 : Int) ≤ v % (2 : Int) ^ 64 := Int.emod_nonneg v (by norm_num)
  split <;> omega

lemma wrap64_eq_of_bounds (v : Int) (h1 : -(2 ^ 63) ≤ v) (h2 : v < 2 ^ 63) :
    wrap64 v = v :=
  toInt64_toUint64 v h1 h2

lemma nextsFl_empty (N : Nat) : ∀ M : Int, -(2 ^ 63) ≤ M → M + N < 2 ^ 63 →
    nextsFl N ⟨M, []⟩ =
      ((List.range N).map (fun i : Nat => M + (i : Int)), ⟨M + N, []⟩) := by
  induction N with
  | zero => intro M h1 h2; simp [nextsFl]
  | succ n ih =>
    intro M h1 h2
    have hcast : M + ((n : Nat) + 1 : Nat) < 2 ^ 63 := h2
    have hn : M + 1 + (n : Int) < 2 ^ 63 := by push_cast at hcast; omega
    simp only [nextsFl, Freelist.Next, List.length_nil, if_true, reduceIte]
    rw [wrap64_eq_of_bounds (M + 1) (by omega) (by omega)]
    rw [ih (M + 1) (by omega) (by push_cast; omega)]
    refine Prod.ext ?_ ?_
    · show M :: _ = _
      rw [List.range_succ_eq_map, List.map_cons, List.map_map]
      simp only [Nat.cast_zero, add_zero, Function.comp]
      congr 1
      refine List.map_congr_left fun i _ => ?_
      simp only [Function.comp_apply]
      push_cast
      ring
    · show Freelist.mk (M + 1 + (n : Int)) [] = Freelist.mk (M + ((n : Nat) + 1 : Nat)) []
      congr 1
      push_cast
      ring

lemma runOps_no_boundary (ops : List FlOp) : ∀ fl : Freelist,
    BeginFreeBlocks ∉ fl.Released → BeginFreeBlocks ∉ (runOps ops fl).Released := by
  induction ops with
  | nil => intro fl h; simpa [runOps] using h
  | cons op rest ih =>
    intro fl h
    cases op with
    | next =>
      refine ih _ ?_
      unfold Freelist.Next
      split
      · simpa using h
      · intro hmem
        exact h (List.mem_of_mem_dropLast hmem)
    | release n =>
      refine ih _ ?_
      unfold Freelist.Release
      split
      · exact h
      · intro hmem
        rcases List.mem_append.1 hmem with hmem | hmem
        · exact h hmem
        · simp only [List.mem_singleton] at hmem
          omega

/-- C10: along every sequence of `Next`/`Release` calls starting from
`NewFreelist()`, the reserved boundary `BeginFreeBlocks` (page 2) — which
is exactly the first number a fresh `Next()` hands out — never enters the
released list, so the first data page is never returned to the reuse pool. -/
theorem boundary_never_in_released (ops : List FlOp) :
    BeginFreeBlocks ∉ (runOps ops NewFreelist).Released ∧
      (NewFreelist.Next).1 = BeginFreeBlocks := by
  constructor
  · exact runOps_no_boundary ops NewFreelist (by simp [NewFreelist])
  · rfl

/-- C4: `Release(n)` for `n ≤ BeginFreeBlocks` leaves the whole Freelist
state (both `Max` and `Released`) unchanged, so the call can never make a
later `Next()` return `n`. -/
theorem release_reserved_noop (fl : Freelist) (n : Int)
    (h : n ≤ BeginFreeBlocks) : fl.Release n = fl := by
  unfold Freelist.Release
  exact if_pos h

/-- Witness for C4 at `fl = NewFreelist`, `n = 1`. -/
theorem release_reserved_noop_witness :
    (1 : Int) ≤ BeginFreeBlocks ∧ NewFreelist.Release 1 = NewFreelist :=
  ⟨by decide, release_reserved_noop NewFreelist 1 (by decide)⟩

/-- C2 counterexample: the very first `Next()` on a fresh Freelist returns
`BeginFreeBlocks` itself (page 2), not `BeginFreeBlocks + 1` as the claim
states. -/
theorem growth_counterexample :
    ¬ (nextsFl 1 NewFreelist).1 = [BeginFreeBlocks + 1] := by
  decide

/-- C2 (amended): on a fresh Freelist, `N ≥ 1` consecutive `Next()` calls
yield the `N` consecutive integers starting at the reserved boundary
(the first call returns `BeginFreeBlocks`), and each growth call
increments `Max` while returning its previous value, so after the calls
`Max = BeginFreeBlocks + N` — provided `N ≤ 2^63 - 3`, so that the
`int64` high-water mark never wraps during the calls. -/
theorem growth_from_boundary (N : Nat) (h : 1 ≤ N)
    (hN : (N : Int) ≤ 2 ^ 63 - 3) :
    (nextsFl N NewFreelist).1 =
        (List.range N).map (fun i : Nat => BeginFreeBlocks + (i : Int)) ∧
      ((nextsFl N NewFreelist).1).head? = some BeginFreeBlocks ∧
      ((nextsFl N NewFreelist).2).Max = BeginFreeBlocks + N := by
  have key := nextsFl_empty N BeginFreeBlocks
    (by rw [show BeginFreeBlocks = (2 : Int) from rfl]; norm_num)
    (by rw [show BeginFreeBlocks = (2 : Int) from rfl]; omega)
  refine ⟨?_, ?_, ?_⟩
  · rw [show NewFreelist = Freelist.mk BeginFreeBlocks [] from rfl, key]
  · rw [show NewFreelist = Freelist.mk BeginFreeBlocks [] from rfl, key]
    cases N with
    | zero => omega
    | succ n => simp [List.range_succ_eq_map]
  · rw [show NewFreelist = Freelist.mk BeginFreeBlocks [] from rfl, key]

/-- Witness for C2 (amended) at `N = 3`. -/
theorem growth_from_boundary_witness :
    (1 ≤ 3 ∧ ((3 : Nat) : Int) ≤ 2 ^ 63 - 3) ∧
      ((nextsFl 3 NewFreelist).1 =
          (List.range 3).map (fun i : Nat => BeginFreeBlocks + (i : Int)) ∧
        ((nextsFl 3 NewFreelist).1).head? = some BeginFreeBlocks ∧
        ((nextsFl 3 NewFreelist).2).Max = BeginFreeBlocks + 3) :=
  ⟨by norm_num, growth_from_boundary 3 (by decide) (by norm_num)⟩

/-- C3 counterexample: for `a = 0`, `b = 1` (both at or below the
reserved boundary) the two releases are silently dropped, so the two
subsequent `Next()` calls return pages 2 and 3, not `b` then `a`. -/
theorem lifo_counterexample :
    ¬ ((((NewFreelist.Release 0).Release 1).Next).1 = 1 ∧
        (((((NewFreelist.Release 0).Release 1).Next).2).Next).1 = 0) := by
  decide

/-- C3 (amended): for releasable page numbers `a` and `b` (both strictly
above `BeginFreeBlocks`), `Release(a)` then `Release(b)` on a fresh
Freelist followed by two `Next()` calls yields `b` first, then `a` —
LIFO reuse before growth. -/
theorem lifo_reuse (a b : Int) (ha : BeginFreeBlocks < a)
    (hb : BeginFreeBlocks < b) :
    ((((NewFreelist.Release a).Release b).Next).1 = b ∧
      (((((NewFreelist.Release a).Release b).Next).2).Next).1 = a) := by
  have ha' : ¬ a ≤ BeginFreeBlocks := not_le.2 ha
  have hb' : ¬ b ≤ BeginFreeBlocks := not_le.2 hb
  simp [NewFreelist, Freelist.Release, Freelist.Next, ha', hb',
    List.getLastD, List.dropLast]

/-- Witness for C3 (amended) at `a = 7`, `b = 9`. -/
theorem lifo_reuse_witness :
    (BeginFreeBlocks < 7 ∧ BeginFreeBlocks < 9) ∧
      ((((NewFreelist.Release 7).Release 9).Next).1 = 9 ∧
        (((((NewFreelist.Release 7).Release 9).Next).2).Next).1 = 7) :=
  ⟨by decide, lifo_reuse 7 9 (by decide) (by decide)⟩

lemma encBytes_length (k : Nat) : ∀ n : Nat, (encBytes k n).length = k := by
  induction k with
  | zero => intro n; rfl
  | succ k ih => intro n; simp [encBytes, ih]

lemma decBytes_encBytes (k : Nat) : ∀ n : Nat,
    decBytes (encBytes k n) = n % 256 ^ k := by
  induction k with
  | zero => intro n; simp [encBytes, decBytes]; omega
  | succ k ih =>
    intro n
    rw [pow_succ']
    rw [Nat.mod_mul]
    simp [encBytes, decBytes, ih]

lemma toUint64_lt (v : Int) : toUint64 v < 256 ^ 8 := by
  unfold toUint64
  have h : (0 : Int) ≤ v % (2 : Int) ^ 64 := Int.emod_nonneg v (by norm_num)
  have h2 : v % (2 : Int) ^ 64 < (2 : Int) ^ 64 :=
    Int.emod_lt_of_pos v (by norm_num)
  have h3 : (256 : Nat) ^ 8 = 18446744073709551616 := by norm_num
  omega

lemma enc64_roundtrip (v : Int) (h1 : -(2 ^ 63) ≤ v) (h2 : v < 2 ^ 63) :
    toInt64 (decBytes (encBytes 8 (toUint64 v))) = v := by
  rw [decBytes_encBytes, Nat.mod_eq_of_lt (toUint64_lt v), toInt64_toUint64 v h1 h2]

lemma map_range_getD {α : Type} (d0 : α) (l : List α) :
    (List.range l.length).map (fun i => l.getD i d0) = l := by
  induction l with
  | nil => simp
  | cons x xs ih =>
    rw [List.length_cons, List.range_succ_eq_map, List.map_cons, List.map_map]
    rw [List.getD_cons_zero]
    have hcomp : ((fun i => (x :: xs).getD i d0) ∘ Nat.succ) =
        (fun i => xs.getD i d0) := by
      funext i
      simp
    rw [hcomp, ih]

/-- Fixed-width round-trip for the Metainfo record: deserializing the
8-byte serialization (with any trailing padding) into any receiver
recovers the original record. -/
lemma metainfo_deserialize_serialize_pad (m0 m : Metainfo) (pad : List Nat)
    (h1 : -(2 ^ 63) ≤ m.Freelist) (h2 : m.Freelist < 2 ^ 63) :
    m0.Deserialize (m.Serialize ++ pad) = (m, none) := by
  unfold Metainfo.Deserialize Metainfo.Serialize
  have hA : (encBytes 8 (toUint64 m.Freelist)).length = 8 := encBytes_length 8 _
  rw [if_neg (by simp [hA])]
  rw [List.take_left' hA, enc64_roundtrip m.Freelist h1 h2]

/-- C6: for every Metainfo whose freelist pointer is a signed 64-bit
page number, `Deserialize (Serialize m)` succeeds and returns a record
equal to `m` field by field. -/
theorem metainfo_roundtrip (m0 m : Metainfo)
    (h1 : -(2 ^ 63) ≤ m.Freelist) (h2 : m.Freelist < 2 ^ 63) :
    m0.Deserialize m.Serialize = (m, none) := by
  have := metainfo_deserialize_serialize_pad m0 m [] h1 h2
  simpa using this

/-- Witness for C6 at `m = ⟨-5⟩` with receiver `NewMetainfo`. -/
theorem metainfo_roundtrip_witness :
    (-(2 ^ 63) ≤ (-5 : Int) ∧ (-5 : Int) < 2 ^ 63) ∧
      NewMetainfo.Deserialize (Metainfo.mk (-5)).Serialize = (⟨-5⟩, none) :=
  ⟨by decide, metainfo_roundtrip NewMetainfo ⟨-5⟩ (by decide) (by decide)⟩

lemma flatten_extract : ∀ (blocks : List (List Nat)) (pad : List Nat) (i : Nat),
    (∀ bl ∈ blocks, bl.length = 8) → i < blocks.length →
    ((blocks.flatten ++ pad).drop (8 * i)).take 8 = blocks.getD i [] := by
  intro blocks
  induction blocks with
  | nil => intro pad i hb hi; simp at hi
  | cons b bs ih =>
    intro pad i hb hi
    have hblen : b.length = 8 := hb b (List.mem_cons_self _ _)
    have hexp : (b :: bs).flatten ++ pad = b ++ (bs.flatten ++ pad) := by
      simp [List.append_assoc]
    cases i with
    | zero =>
      rw [hexp, Nat.mul_zero, List.drop_zero, List.getD_cons_zero,
        List.take_left' hblen]
    | succ j =>
      rw [hexp, show 8 * (j + 1) = 8 + 8 * j from by ring, ← List.drop_drop,
        List.drop_left' hblen, List.getD_cons_succ]
      exact ih pad j
        (fun bl h => hb bl (List.mem_cons_of_mem _ h)) (by simpa using hi)

lemma flatten_blocks_length (l : List Int) :
    ((l.map fun num => encBytes 8 (toUint64 num)).flatten).length = 8 * l.length := by
  induction l with
  | nil => simp
  | cons x xs ih => simp [encBytes_length, ih]; ring

lemma freelist_serialize_length (fl : Freelist) :
    fl.Serialize.length = 12 + 8 * fl.Released.length := by
  unfold Freelist.Serialize
  simp only [List.length_append, encBytes_length, flatten_blocks_length]

/-- Variable-width round-trip for the Freelist record: deserializing the
serialization (with any trailing padding) into any receiver recovers the
original record exactly, provided every stored number fits in a signed
64-bit integer and the released count fits in an unsigned 32-bit one, as
the Go types guarantee. -/
lemma freelist_deserialize_serialize_pad (fl0 fl : Freelist) (pad : List Nat)
    (hc : fl.Released.length < 2 ^ 32)
    (hmax1 : -(2 ^ 63) ≤ fl.Max) (hmax2 : fl.Max < 2 ^ 63)
    (hrel : ∀ x ∈ fl.Released, -(2 ^ 63) ≤ x ∧ x < 2 ^ 63) :
    fl0.Deserialize (fl.Serialize ++ pad) = (fl, none) := by
  have hA : (encBytes 8 (toUint64 fl.Max)).length = 8 := encBytes_length 8 _
  have hB : (encBytes 4 fl.Released.length).length = 4 := encBytes_length 4 _
  have hC := flatten_blocks_length fl.Released
  have hexp : fl.Serialize ++ pad =
      encBytes 8 (toUint64 fl.Max) ++ (encBytes 4 fl.Released.length ++
        ((fl.Released.map fun num => encBytes 8 (toUint64 num)).flatten ++ pad)) := by
    simp [Freelist.Serialize, List.append_assoc]
  have hlen : (fl.Serialize ++ pad).length =
      12 + 8 * fl.Released.length + pad.length := by
    rw [hexp]
    simp only [List.length_append, hA, hB, hC]
    ring
  have hcount : decBytes (((fl.Serialize ++ pad).drop 8).take 4) =
      fl.Released.length := by
    rw [hexp, List.drop_left' hA, List.take_left' hB, decBytes_encBytes]
    exact Nat.mod_eq_of_lt (by norm_num at hc ⊢; omega)
  have hdrop12 : (fl.Serialize ++ pad).drop 12 =
      (fl.Released.map fun num => encBytes 8 (toUint64 num)).flatten ++ pad := by
    rw [show (12 : Nat) = 8 + 4 from rfl, ← List.drop_drop, hexp,
      List.drop_left' hA, List.drop_left' hB]
  unfold Freelist.Deserialize
  rw [if_neg (by omega)]
  simp only [hcount, List.length_replicate]
  rw [if_neg (by omega)]
  have hmaxdec : toInt64 (decBytes ((fl.Serialize ++ pad).take 8)) = fl.Max := by
    rw [hexp, List.take_left' hA, enc64_roundtrip fl.Max hmax1 hmax2]
  have hentries : (List.range fl.Released.length).map
      (fun i => toInt64 (decBytes (((fl.Serialize ++ pad).drop (12 + 8 * i)).take 8))) =
      fl.Released := by
    have hstep : ∀ i ∈ List.range fl.Released.length,
        toInt64 (decBytes (((fl.Serialize ++ pad).drop (12 + 8 * i)).take 8)) =
          fl.Released.getD i 0 := by
      intro i hi
      rw [List.mem_range] at hi
      rw [← List.drop_drop (8 * i) 12, hdrop12]
      rw [flatten_extract _ pad i ?hlen ?hi]
      case hlen =>
        intro bl hbl
        obtain ⟨num, _, rfl⟩ := List.mem_map.1 hbl
        exact encBytes_length 8 _
      case hi => simpa using hi
      have hmem : fl.Released.getD i 0 ∈ fl.Released := by
        rw [List.getD_eq_getElem fl.Released 0 hi]
        exact List.getElem_mem hi
      rw [List.getD_eq_getElem _ _ (by simpa using hi), List.getElem_map,
        ← List.getD_eq_getElem fl.Released 0 hi]
      exact enc64_roundtrip _ (hrel _ hmem).1 (hrel _ hmem).2
    rw [List.map_congr_left hstep, map_range_getD]
  rw [hmaxdec, hentries]

/-- C5: for every Freelist whose numbers fit the Go machine types
(signed 64-bit entries, unsigned 32-bit count), `Deserialize (Serialize fl)`
succeeds and returns the identical `Max` and the identical released
list — in particular the same set of released page numbers. -/
theorem freelist_roundtrip (fl0 fl : Freelist)
    (hc : fl.Released.length < 2 ^ 32)
    (hmax1 : -(2 ^ 63) ≤ fl.Max) (hmax2 : fl.Max < 2 ^ 63)
    (hrel : ∀ x ∈ fl.Released, -(2 ^ 63) ≤ x ∧ x < 2 ^ 63) :
    (fl0.Deserialize fl.Serialize).2 = none ∧
      (fl0.Deserialize fl.Serialize).1.Max = fl.Max ∧
      (fl0.Deserialize fl.Serialize).1.Released = fl.Released := by
  have h := freelist_deserialize_serialize_pad fl0 fl [] hc hmax1 hmax2 hrel
  rw [List.append_nil] at h
  rw [h]
  exact ⟨rfl, rfl, rfl⟩

/-- Witness for C5 at `fl = ⟨9, [4, -3]⟩` with receiver `NewFreelist`. -/
theorem freelist_roundtrip_witness :
    ((Freelist.mk 9 [4, -3]).Released.length < 2 ^ 32 ∧
        -(2 ^ 63) ≤ (Freelist.mk 9 [4, -3]).Max ∧
        (Freelist.mk 9 [4, -3]).Max < 2 ^ 63 ∧
        ∀ x ∈ (Freelist.mk 9 [4, -3]).Released, -(2 ^ 63) ≤ x ∧ x < 2 ^ 63) ∧
      ((NewFreelist.Deserialize (Freelist.mk 9 [4, -3]).Serialize).2 = none ∧
        (NewFreelist.Deserialize (Freelist.mk 9 [4, -3]).Serialize).1.Max = 9 ∧
        (NewFreelist.Deserialize (Freelist.mk 9 [4, -3]).Serialize).1.Released =
          [4, -3]) :=
  ⟨by decide, freelist_roundtrip NewFreelist ⟨9, [4, -3]⟩ (by decide) (by decide)
    (by decide) (by decide)⟩

lemma freelist_deserialize_zero_count (fl0 : Freelist) (b : List Nat)
    (h1 : 12 ≤ b.length) (hcount : decBytes ((b.drop 8).take 4) = 0) :
    fl0.Deserialize b = (⟨toInt64 (decBytes (b.take 8)), []⟩, none) := by
  unfold Freelist.Deserialize
  rw [if_neg (by omega)]
  simp only [hcount, List.replicate_zero, List.length_nil]
  rw [if_neg (by omega)]
  simp

lemma freelist_roundtrip_cex_aux (R : List Int) (hRlen : R.length = 2 ^ 32)
    (hmem : (7 : Int) ∈ R) :
    (NewFreelist.Deserialize (Freelist.mk 3 R).Serialize).2 = none ∧
    ((NewFreelist.Deserialize (Freelist.mk 3 R).Serialize).1).Released = [] ∧
    (7 : Int) ∈ (Freelist.mk 3 R).Released := by
  have hserlen : (Freelist.mk 3 R).Serialize.length = 12 + 8 * R.length :=
    freelist_serialize_length _
  have hcount : decBytes (((Freelist.mk 3 R).Serialize.drop 8).take 4) = 0 := by
    unfold Freelist.Serialize
    rw [List.append_assoc, List.drop_left' (encBytes_length 8 _),
      List.take_left' (encBytes_length 4 _), decBytes_encBytes]
    show R.length % 256 ^ 4 = 0
    rw [hRlen]
    norm_num
  have h := freelist_deserialize_zero_count NewFreelist _
    (by rw [hserlen, hRlen]; norm_num) hcount
  rw [h]
  exact ⟨rfl, rfl, hmem⟩

/-- C5 counterexample: the Go-realizable Freelist with `2^32` released
entries (slice lengths are `int`, not `uint32`) serializes a declared
uint32 count of `2^32 mod 2^32 = 0`, so deserializing its serialization
succeeds yet returns an empty released list: page 7 is in the original
released set but not in the recovered one, refuting the round-trip for
every Freelist value. -/
theorem freelist_roundtrip_counterexample :
    (NewFreelist.Deserialize
        (Freelist.mk 3 (List.replicate (2 ^ 32) 7)).Serialize).2 = none ∧
    ((NewFreelist.Deserialize
        (Freelist.mk 3 (List.replicate (2 ^ 32) 7)).Serialize).1).Released = [] ∧
    (7 : Int) ∈ (Freelist.mk 3 (List.replicate (2 ^ 32) 7)).Released :=
  freelist_roundtrip_cex_aux (List.replicate (2 ^ 32) 7)
    (List.length_replicate _ _) (by rw [List.mem_replicate]; norm_num)

/-- C7: `Freelist.Deserialize` fails with the wrong-byte-count error
exactly when fewer than 12 bytes are given or the buffer is shorter than
the 12-byte header plus 8 bytes per entry of the count declared in bytes
8..12; otherwise it succeeds, decoding `Max` from the first 8 bytes and
the released list positionally from the following entries. -/
theorem freelist_deserialize_error_iff (fl : Freelist) (b : List Nat) :
    ((fl.Deserialize b).2 = some DecodeErr.wrongBytes ↔
      b.length < 12 ∨ b.length < 12 + 8 * decBytes ((b.drop 8).take 4)) ∧
    ((fl.Deserialize b).2 = none →
      (fl.Deserialize b).1 = ⟨toInt64 (decBytes (b.take 8)),
        (List.range (decBytes ((b.drop 8).take 4))).map fun i =>
          toInt64 (decBytes ((b.drop (12 + 8 * i)).take 8))⟩) := by
  unfold Freelist.Deserialize
  by_cases h1 : b.length < 8 + 4
  · rw [if_pos h1]
    constructor
    · simp only [true_iff]
      left
      omega
    · intro h
      simp at h
  · rw [if_neg h1]
    simp only [List.length_replicate]
    by_cases h2 : b.length < 8 + 4 + 8 * decBytes ((b.drop 8).take 4)
    · rw [if_pos h2]
      constructor
      · simp only [true_iff]
        right
        omega
      · intro h
        simp at h
    · rw [if_neg h2]
      constructor
      · simp only [iff_false_intro]
        constructor
        · intro h
          simp at h
        · intro h
          omega
      · intro
        rfl

/-- Witness for C7 at a 13-byte buffer declaring 2 entries (header
present, body short): the decode fails. -/
theorem freelist_deserialize_error_iff_witness :
    ((NewFreelist.Deserialize
          [1, 0, 0, 0, 0, 0, 0, 0, 2, 0, 0, 0, 9]).2 = some DecodeErr.wrongBytes ↔
      ([1, 0, 0, 0, 0, 0, 0, 0, 2, 0, 0, 0, 9] : List Nat).length < 12 ∨
        ([1, 0, 0, 0, 0, 0, 0, 0, 2, 0, 0, 0, 9] : List Nat).length < 12 +
          8 * decBytes ((([1, 0, 0, 0, 0, 0, 0, 0, 2, 0, 0, 0, 9] :
            List Nat).drop 8).take 4)) ∧
    ((NewFreelist.Deserialize [1, 0, 0, 0, 0, 0, 0, 0, 2, 0, 0, 0, 9]).2 = none →
      (NewFreelist.Deserialize [1, 0, 0, 0, 0, 0, 0, 0, 2, 0, 0, 0, 9]).1 =
        ⟨toInt64 (decBytes (([1, 0, 0, 0, 0, 0, 0, 0, 2, 0, 0, 0, 9] :
            List Nat).take 8)),
          (List.range (decBytes ((([1, 0, 0, 0, 0, 0, 0, 0, 2, 0, 0, 0, 9] :
            List Nat).drop 8).take 4))).map fun i =>
            toInt64 (decBytes ((([1, 0, 0, 0, 0, 0, 0, 0, 2, 0, 0, 0, 9] :
              List Nat).drop (12 + 8 * i)).take 8))⟩) :=
  freelist_deserialize_error_iff NewFreelist [1, 0, 0, 0, 0, 0, 0, 0, 2, 0, 0, 0, 9]

/-- C9: when the header is present but the declared count implies a body
longer than the buffer, `Freelist.Deserialize` reports the
wrong-byte-count error yet has already overwritten the receiver: `Max`
carries the decoded first 8 bytes and `Released` has been replaced by a
zero-filled list of the declared length — a failed deserialize is not
atomic. -/
theorem freelist_deserialize_not_atomic (fl : Freelist) (b : List Nat)
    (h1 : 12 ≤ b.length)
    (h2 : b.length < 12 + 8 * decBytes ((b.drop 8).take 4)) :
    fl.Deserialize b =
      (⟨toInt64 (decBytes (b.take 8)),
        List.replicate (decBytes ((b.drop 8).take 4)) 0⟩,
       some DecodeErr.wrongBytes) := by
  unfold Freelist.Deserialize
  rw [if_neg (by omega)]
  simp only [List.length_replicate]
  rw [if_pos (by omega)]

/-- Witness for C9: a 12-byte buffer declaring 2 entries mutates the
fresh receiver to `⟨5, [0, 0]⟩` while still failing. -/
theorem freelist_deserialize_not_atomic_witness :
    (12 ≤ ([5, 0, 0, 0, 0, 0, 0, 0, 2, 0, 0, 0] : List Nat).length ∧
        ([5, 0, 0, 0, 0, 0, 0, 0, 2, 0, 0, 0] : List Nat).length < 12 +
          8 * decBytes ((([5, 0, 0, 0, 0, 0, 0, 0, 2, 0, 0, 0] :
            List Nat).drop 8).take 4)) ∧
      NewFreelist.Deserialize [5, 0, 0, 0, 0, 0, 0, 0, 2, 0, 0, 0] =
        (⟨5, [0, 0]⟩, some DecodeErr.wrongBytes) ∧
      (NewFreelist.Deserialize [5, 0, 0, 0, 0, 0, 0, 0, 2, 0, 0, 0]).1 ≠
        NewFreelist := by
  refine ⟨by decide, ?_, by decide⟩
  have h := freelist_deserialize_not_atomic NewFreelist
    [5, 0, 0, 0, 0, 0, 0, 0, 2, 0, 0, 0] (by decide) (by decide)
  rw [h]
  decide

/-- C8: `Page.Write(b)` overwrites exactly the first
`min (length b) (length Data)` bytes of the fixed-length buffer with the
corresponding initial bytes of `b`, discards the rest of `b`, and leaves
the trailing bytes of the buffer untouched. -/
theorem page_write_spec (pg : Page) (b : List Nat) :
    (pg.Write b).Data.length = pg.Data.length ∧
    (pg.Write b).Data.take (min b.length pg.Data.length) =
      b.take (min b.length pg.Data.length) ∧
    (pg.Write b).Data.drop (min b.length pg.Data.length) =
      pg.Data.drop (min b.length pg.Data.length) := by
  have hk : (b.take (min b.length pg.Data.length)).length =
      min b.length pg.Data.length := by
    simp [List.length_take]
  unfold Page.Write copyBytes
  refine ⟨?_, ?_, ?_⟩
  · simp only [List.length_append, List.length_take, List.length_drop]
    omega
  · exact List.take_left' hk
  · exact List.drop_left' hk

lemma copyBytes_length (dst src : List Nat) :
    (copyBytes dst src).length = dst.length := by
  unfold copyBytes
  simp only [List.length_append, List.length_take, List.length_drop]
  omega

lemma copyBytes_replicate (s : Nat) (b : List Nat) (h : b.length ≤ s) :
    copyBytes (List.replicate s 0) b = b ++ List.replicate (s - b.length) 0 := by
  unfold copyBytes
  rw [List.length_replicate, min_eq_left h, List.take_length, List.drop_replicate]

lemma metainfo_serialize_length (m : Metainfo) : m.Serialize.length = 8 :=
  encBytes_length 8 _

lemma readAt_writeAt_self (f : FileBytes) (off : Int) (d : List Nat) (n : Nat)
    (h : d.length = n) : readAt (writeAt f off d) off n = d := by
  subst h
  unfold readAt writeAt
  have hstep : ∀ i ∈ List.range d.length,
      (if off ≤ off + (i : Int) ∧ off + (i : Int) < off + (d.length : Int) then
          d.getD (off + (i : Int) - off).toNat 0
        else f (off + (i : Int))) = d.getD i 0 := by
    intro i hi
    rw [List.mem_range] at hi
    rw [if_pos ⟨by omega, by omega⟩]
    congr 1
    omega
  rw [List.map_congr_left hstep, map_range_getD]

lemma readAt_writeAt_before (f : FileBytes) (off1 : Int) (n : Nat) (off2 : Int)
    (d : List Nat) (h : off1 + n ≤ off2) :
    readAt (writeAt f off2 d) off1 n = readAt f off1 n := by
  unfold readAt writeAt
  refine List.map_congr_left fun i hi => ?_
  rw [List.mem_range] at hi
  rw [if_neg (by omega)]

lemma flush_success (pgr : Pager)
    (h1 : ¬ wrap64 (DefaultMetaPage * (pgr.psize : Int)) < 0)
    (h2 : ¬ wrap64 (pgr.meta.Freelist * (pgr.psize : Int)) < 0) :
    pgr.Flush = ({ pgr with file := (FileState.mk
        (writeAt (writeAt pgr.file.bytes (wrap64 (DefaultMetaPage * pgr.psize))
            (copyBytes (List.replicate pgr.psize 0) pgr.meta.Serialize))
          (wrap64 (pgr.meta.Freelist * pgr.psize))
          (copyBytes (List.replicate pgr.psize 0) pgr.flist.Serialize))
        (max (max pgr.file.size (wrap64 (DefaultMetaPage * pgr.psize) +
            ((copyBytes (List.replicate pgr.psize 0) pgr.meta.Serialize).length : Int)))
          (wrap64 (pgr.meta.Freelist * pgr.psize) +
            ((copyBytes (List.replicate pgr.psize 0) pgr.flist.Serialize).length : Int)))) },
      none) := by
  unfold Pager.Flush Pager.Write writeFile Pager.Alloc Page.WithNum Page.Write NewPage
  simp only [if_neg h1, if_neg h2]

lemma readFile_eq (B : FileBytes) (S off : Int) (n : Nat) (d : List Nat)
    (h0 : 0 ≤ off) (hS : off + n ≤ S) (hd : readAt B off n = d) :
    readFile ⟨B, S⟩ off n = (d, none) := by
  unfold readFile
  rw [if_pos (show 0 ≤ off ∧ off + (n : Int) ≤ FileState.size ⟨B, S⟩ from ⟨h0, hS⟩)]
  rw [hd]

lemma recovery_success (pgr : Pager) (m : Metainfo) (fl : Freelist)
    (dm df : List Nat)
    (h1 : readFile pgr.file (wrap64 (DefaultMetaPage * pgr.psize)) pgr.psize =
      (dm, none))
    (h2 : pgr.meta.Deserialize dm = (m, none))
    (h3 : readFile pgr.file (wrap64 (m.Freelist * pgr.psize)) pgr.psize =
      (df, none))
    (h4 : pgr.flist.Deserialize df = (fl, none)) :
    pgr.Recovery = ({ pgr with meta := m, flist := fl }, none) := by
  unfold Pager.Recovery Pager.Read
  simp only [h1, h2, h3, h4, Option.map_none']

/-- C1 counterexample: `wrapPager` satisfies every hypothesis of the
claim (page size 32 holds both records, the freelist pointer `2^62` is a
positive signed 64-bit page number), yet Go's `int64` flush offset
`2^62 * 32` wraps to 0, so the freelist record clobbers the metainfo
page; recovery then decodes a freelist pointer of 5 and the read of page
5 fails past end-of-file instead of restoring the flushed state. -/
theorem flush_recovery_counterexample :
    (8 ≤ wrapPager.psize ∧
        12 + 8 * wrapPager.flist.Released.length ≤ wrapPager.psize ∧
        1 ≤ wrapPager.meta.Freelist ∧ wrapPager.meta.Freelist < 2 ^ 63 ∧
        wrapPager.flist.Released.length < 2 ^ 32 ∧
        -(2 ^ 63) ≤ wrapPager.flist.Max ∧ wrapPager.flist.Max < 2 ^ 63 ∧
        ∀ x ∈ wrapPager.flist.Released, -(2 ^ 63) ≤ x ∧ x < 2 ^ 63) ∧
      (((wrapPager.Flush).1).Recovery).2 = some PagerErr.ioErr ∧
      (((wrapPager.Flush).1).Recovery).1.meta ≠ wrapPager.meta := by
  decide

/-- C1 (amended): whenever the page size holds both serialized control
records (8 bytes for Metainfo, `12 + 8·|released|` bytes for the
Freelist), the Metainfo's freelist pointer is a positive page number,
and the flush offsets stay within `int64`
(`(freelist pointer + 1) · page size ≤ 2^63`) — with the Go machine-type
bounds: pointer and stored numbers signed 64-bit, released count
unsigned 32-bit — `Flush()` succeeds and `Recovery()` over the resulting
file restores a Metainfo equal by value to the flushed one and a
Freelist with the same `Max` and the identical released list, in
particular the same set of released page numbers. -/
theorem flush_recovery_roundtrip (pgr : Pager)
    (hmeta8 : 8 ≤ pgr.psize)
    (hflsize : 12 + 8 * pgr.flist.Released.length ≤ pgr.psize)
    (hp1 : 1 ≤ pgr.meta.Freelist) (hp2 : pgr.meta.Freelist < 2 ^ 63)
    (hnw : (pgr.meta.Freelist + 1) * (pgr.psize : Int) ≤ 2 ^ 63)
    (hc : pgr.flist.Released.length < 2 ^ 32)
    (hmax1 : -(2 ^ 63) ≤ pgr.flist.Max) (hmax2 : pgr.flist.Max < 2 ^ 63)
    (hrel : ∀ x ∈ pgr.flist.Released, -(2 ^ 63) ≤ x ∧ x < 2 ^ 63) :
    (pgr.Flush).2 = none ∧
      (((pgr.Flush).1).Recovery).2 = none ∧
      (((pgr.Flush).1).Recovery).1.meta = pgr.meta ∧
      (((pgr.Flush).1).Recovery).1.flist.Max = pgr.flist.Max ∧
      (((pgr.Flush).1).Recovery).1.flist.Released = pgr.flist.Released := by
  have h0p : (0 : Int) ≤ (pgr.psize : Int) := by positivity
  have hps8 : (8 : Int) ≤ (pgr.psize : Int) := by exact_mod_cast hmeta8
  have hoffm : wrap64 (DefaultMetaPage * (pgr.psize : Int)) = 0 := by
    rw [show DefaultMetaPage = (0 : Int) from rfl, zero_mul]
    exact wrap64_eq_of_bounds 0 (by norm_num) (by norm_num)
  have hA : (0 : Int) ≤ pgr.meta.Freelist * pgr.psize :=
    mul_nonneg (by omega) h0p
  have hppbound : pgr.meta.Freelist * (pgr.psize : Int) + pgr.psize ≤ 2 ^ 63 := by
    have h := hnw
    rw [show (pgr.meta.Freelist + 1) * (pgr.psize : Int) =
        pgr.meta.Freelist * pgr.psize + pgr.psize from by ring] at h
    exact h
  have hofff : wrap64 (pgr.meta.Freelist * (pgr.psize : Int)) =
      pgr.meta.Freelist * pgr.psize :=
    wrap64_eq_of_bounds _ (by omega) (by omega)
  have hmdlen : (copyBytes (List.replicate pgr.psize 0) pgr.meta.Serialize).length =
      pgr.psize := by
    rw [copyBytes_length, List.length_replicate]
  have hfdlen : (copyBytes (List.replicate pgr.psize 0) pgr.flist.Serialize).length =
      pgr.psize := by
    rw [copyBytes_length, List.length_replicate]
  have hmdeq : copyBytes (List.replicate pgr.psize 0) pgr.meta.Serialize =
      pgr.meta.Serialize ++ List.replicate (pgr.psize - 8) 0 := by
    rw [copyBytes_replicate _ _ (by rw [metainfo_serialize_length]; omega),
      metainfo_serialize_length]
  have hfdeq : copyBytes (List.replicate pgr.psize 0) pgr.flist.Serialize =
      pgr.flist.Serialize ++
        List.replicate (pgr.psize - (12 + 8 * pgr.flist.Released.length)) 0 := by
    rw [copyBytes_replicate _ _ (by rw [freelist_serialize_length]; omega),
      freelist_serialize_length]
  have hpsle : (pgr.psize : Int) ≤ pgr.meta.Freelist * pgr.psize := by
    have h0 : (1 : Int) * (pgr.psize : Int) ≤ pgr.meta.Freelist * pgr.psize :=
      mul_le_mul_of_nonneg_right hp1 h0p
    rw [one_mul] at h0
    exact h0
  have hflush := flush_success pgr (by rw [hoffm]; omega) (by rw [hofff]; omega)
  rw [hoffm, hofff, hmdlen, hfdlen] at hflush
  have hrA1 : readAt (writeAt (writeAt pgr.file.bytes 0
        (copyBytes (List.replicate pgr.psize 0) pgr.meta.Serialize))
        (pgr.meta.Freelist * pgr.psize)
        (copyBytes (List.replicate pgr.psize 0) pgr.flist.Serialize))
      0 pgr.psize =
      copyBytes (List.replicate pgr.psize 0) pgr.meta.Serialize := by
    rw [readAt_writeAt_before _ _ _ _ _ (by omega)]
    exact readAt_writeAt_self _ _ _ _ hmdlen
  have hrA2 : readAt (writeAt (writeAt pgr.file.bytes 0
        (copyBytes (List.replicate pgr.psize 0) pgr.meta.Serialize))
        (pgr.meta.Freelist * pgr.psize)
        (copyBytes (List.replicate pgr.psize 0) pgr.flist.Serialize))
      (pgr.meta.Freelist * pgr.psize) pgr.psize =
      copyBytes (List.replicate pgr.psize 0) pgr.flist.Serialize :=
    readAt_writeAt_self _ _ _ _ hfdlen
  have hread1 : readFile
      (FileState.mk (writeAt (writeAt pgr.file.bytes 0
          (copyBytes (List.replicate pgr.psize 0) pgr.meta.Serialize))
          (pgr.meta.Freelist * pgr.psize)
          (copyBytes (List.replicate pgr.psize 0) pgr.flist.Serialize))
        (max (max pgr.file.size (0 + (pgr.psize : Int)))
          (pgr.meta.Freelist * pgr.psize + (pgr.psize : Int))))
      (wrap64 (DefaultMetaPage * pgr.psize)) pgr.psize =
      (copyBytes (List.replicate pgr.psize 0) pgr.meta.Serialize, none) := by
    rw [hoffm]
    exact readFile_eq _ _ _ _ _ (le_refl 0) (by omega) hrA1
  have hread2 : readFile
      (FileState.mk (writeAt (writeAt pgr.file.bytes 0
          (copyBytes (List.replicate pgr.psize 0) pgr.meta.Serialize))
          (pgr.meta.Freelist * pgr.psize)
          (copyBytes (List.replicate pgr.psize 0) pgr.flist.Serialize))
        (max (max pgr.file.size (0 + (pgr.psize : Int)))
          (pgr.meta.Freelist * pgr.psize + (pgr.psize : Int))))
      (wrap64 (pgr.meta.Freelist * pgr.psize)) pgr.psize =
      (copyBytes (List.replicate pgr.psize 0) pgr.flist.Serialize, none) := by
    rw [hofff]
    exact readFile_eq _ _ _ _ _ hA (by omega) hrA2
  have hds1 : pgr.meta.Deserialize
      (copyBytes (List.replicate pgr.psize 0) pgr.meta.Serialize) =
      (pgr.meta, none) := by
    rw [hmdeq]
    exact metainfo_deserialize_serialize_pad pgr.meta pgr.meta _ (by omega) hp2
  have hds2 : pgr.flist.Deserialize
      (copyBytes (List.replicate pgr.psize 0) pgr.flist.Serialize) =
      (pgr.flist, none) := by
    rw [hfdeq]
    exact freelist_deserialize_serialize_pad pgr.flist pgr.flist _ hc hmax1 hmax2 hrel
  have hrec := recovery_success
    ({ pgr with file := (FileState.mk (writeAt (writeAt pgr.file.bytes 0
          (copyBytes (List.replicate pgr.psize 0) pgr.meta.Serialize))
          (pgr.meta.Freelist * pgr.psize)
          (copyBytes (List.replicate pgr.psize 0) pgr.flist.Serialize))
        (max (max pgr.file.size (0 + (pgr.psize : Int)))
          (pgr.meta.Freelist * pgr.psize + (pgr.psize : Int)))) } : Pager)
    pgr.meta pgr.flist _ _ hread1 hds1 hread2 hds2
  simp only [hflush, hrec]
  exact ⟨trivial, trivial, trivial, trivial, trivial⟩

/-- Witness for C1 (amended) on `examplePager` (page size 32, freelist
at page 1, one released page). -/
theorem flush_recovery_roundtrip_witness :
    (8 ≤ examplePager.psize ∧
        12 + 8 * examplePager.flist.Released.length ≤ examplePager.psize ∧
        1 ≤ examplePager.meta.Freelist ∧ examplePager.meta.Freelist < 2 ^ 63 ∧
        (examplePager.meta.Freelist + 1) * (examplePager.psize : Int) ≤ 2 ^ 63 ∧
        examplePager.flist.Released.length < 2 ^ 32 ∧
        -(2 ^ 63) ≤ examplePager.flist.Max ∧ examplePager.flist.Max < 2 ^ 63 ∧
        ∀ x ∈ examplePager.flist.Released, -(2 ^ 63) ≤ x ∧ x < 2 ^ 63) ∧
      ((examplePager.Flush).2 = none ∧
        (((examplePager.Flush).1).Recovery).2 = none ∧
        (((examplePager.Flush).1).Recovery).1.meta = examplePager.meta ∧
        (((examplePager.Flush).1).Recovery).1.flist.Max =
          examplePager.flist.Max ∧
        (((examplePager.Flush).1).Recovery).1.flist.Released =
          examplePager.flist.Released) :=
  ⟨by decide, flush_recovery_roundtrip examplePager (by decide) (by decide)
    (by decide) (by decide) (by decide) (by decide) (by decide) (by decide)
    (by decide)⟩
end EmbedStore
